import Mathlib

/-!
Verification of the air-defence repository: shallow embedding of the
ballistic collision resolver, the projectile update, the decal ring buffer
and the terrain filter pipeline, with theorems settling the frozen claims.
Rationals stand in for JS numbers wherever the computation is exact; a
dedicated JSNum type models the IEEE special values (NaN, signed infinity)
where the claims depend on them.
-/

/-! ## Ballistics: the hit branch of BallisticObject.checkIntersection -/

/-- Outcome of the hit branch of BallisticObject.checkIntersection
(src/ballistic_object.ts lines 195-226): either the projectile deflects off
the surface (velocity reflected about the normal, scaled to 20 percent,
position nudged off the surface) and keeps flying, or it impacts, which
invokes the hit callback of the hittable host, spawns a decal and removes
the projectile from the registry, i.e. transitions it to Terminated. -/
inductive HitOutcome where
  | deflected
  | impact
deriving DecidableEq

/-- The deflection decision of checkIntersection: `rand` models the
Math.random() sample and `s` models Math.sin(hitAngle), where hitAngle is
n.angleTo(v), the angle between the struck face normal and the projectile
velocity.  The source computes deflectChance = sin(hitAngle)^4 and deflects
exactly when rand < deflectChance - 0.3. -/
def resolveHit (rand s : ℚ) : HitOutcome :=
  if rand < s ^ 4 - 3 / 10 then .deflected else .impact

/-- C1: on a ray hit the resolver deflects iff the uniform sample in [0,1) is
below sin(hitAngle)^4 - 0.3; whenever sin(hitAngle)^4 <= 0.3 (in particular at
perpendicular incidence, where the angle to the normal gives sin = 0) the
projectile never deflects and takes the impact branch, which terminates it. -/
theorem checkIntersection_deflect_iff (rand s : ℚ) (h0 : 0 ≤ rand) (_h1 : rand < 1) :
    (resolveHit rand s = .deflected ↔ rand < s ^ 4 - 3 / 10) ∧
    (s ^ 4 ≤ 3 / 10 → resolveHit rand s = .impact) := by
  constructor
  · unfold resolveHit
    split <;> simp_all
  · intro hs
    unfold resolveHit
    rw [if_neg]
    intro hlt
    nlinarith

/-- Witness for checkIntersection_deflect_iff at rand = 1/2 and s = 0 (the
perpendicular-incidence case): the projectile impacts. -/
theorem checkIntersection_deflect_iff_witness :
    (0 ≤ (1 / 2 : ℚ)) ∧ ((1 / 2 : ℚ) < 1) ∧ ((0 : ℚ) ^ 4 ≤ 3 / 10) ∧
    resolveHit (1 / 2) 0 = .impact := by
  refine ⟨by norm_num, by norm_num, by norm_num, ?_⟩
  exact (checkIntersection_deflect_iff (1 / 2) 0 (by norm_num) (by norm_num)).2 (by norm_num)

/-! ## Ballistics: the tick-delta adjustment in BallisticObject.update -/

/-- The head of BallisticObject.update (src/ballistic_object.ts lines 164-168):
et += delta; if et < 0 the tick is skipped entirely (the projectile is still
Pending); if et < delta (so the projectile was Pending when the tick began)
the integration delta becomes delta - et.  Returns none when the tick is
skipped and otherwise the delta used for the physics of this tick. -/
def effectiveDelta (et delta : ℚ) : Option ℚ :=
  let et2 := et + delta
  if et2 < 0 then none
  else if et2 < delta then some (delta - et2) else some delta

/-- C3: for a Pending projectile with et = -1 receiving delta = 3, the
post-activation portion of the tick is et + delta = 2, but the code integrates
delta - (et + delta) = 1, the pre-activation portion, so the claim fails on
the code. -/
theorem effectiveDelta_pending_uses_preactivation :
    effectiveDelta (-1) 3 = some 1 ∧ (-1 : ℚ) + 3 = 2 ∧ effectiveDelta (-1) 3 ≠ some 2 := by
  refine ⟨?_, by norm_num, ?_⟩ <;> norm_num [effectiveDelta]

/-! ## Game: the decal ring buffer of AirDefence.addDecal -/

/-- The while loop of AirDefence.addDecal (src/unnamed/part_001 lines 74-77):
while more than 500 decals are resident, shift the oldest off the front and
detach it from its parent.  First component: the surviving buffer; second:
the evicted (detached) decals, oldest first. -/
def evictLoop : List ℕ → List ℕ × List ℕ
  | [] => ([], [])
  | d :: rest =>
    if (d :: rest).length > 500 then
      ((evictLoop rest).1, d :: (evictLoop rest).2)
    else (d :: rest, [])

/-- AirDefence.addDecal: push the new decal at the back, then run the
eviction loop.  First component: the resulting decal buffer; second: the
decals evicted by this call. -/
def addDecal (decals : List ℕ) (decal : ℕ) : List ℕ × List ℕ :=
  evictLoop (decals ++ [decal])

theorem evictLoop_fst_length (l : List ℕ) : (evictLoop l).1.length ≤ 500 := by
  induction l with
  | nil => simp [evictLoop]
  | cons d rest ih =>
    by_cases h : (d :: rest).length > 500
    · rw [evictLoop, if_pos h]
      exact ih
    · rw [evictLoop, if_neg h]
      exact Nat.not_lt.mp h

/-- The buffer obtained by inserting decals 1, 2, ..., n in order into an
empty buffer. -/
def insertSeq (n : ℕ) : List ℕ :=
  (List.range n).foldl (fun buf i => (addDecal buf (i + 1)).1) []

theorem evictLoop_small (l : List ℕ) (h : l.length ≤ 500) : evictLoop l = (l, []) := by
  cases l with
  | nil => simp [evictLoop]
  | cons d rest => rw [evictLoop, if_neg (Nat.not_lt.mpr h)]

theorem insertSeq_le_500 : ∀ n, n ≤ 500 → insertSeq n = List.range' 1 n := by
  intro n
  induction n with
  | zero => intro _; simp [insertSeq]
  | succ m ih =>
    intro h
    have hm : insertSeq m = List.range' 1 m := ih (by omega)
    have hstep : insertSeq (m + 1) = (addDecal (insertSeq m) (m + 1)).1 := by
      unfold insertSeq
      rw [List.range_succ, List.foldl_append]
      rfl
    have hlist : List.range' 1 m ++ [m + 1] = List.range' 1 (m + 1) := by
      rw [List.range'_concat]
      simp [Nat.add_comm]
    rw [hstep, hm, addDecal, hlist,
      evictLoop_small _ (by simp only [List.length_range']; omega)]

/-- C4: after every addDecal call at most 500 decals are live, and eviction is
FIFO: inserting decals 1..501 into an empty buffer leaves exactly the 500
decals 2..501 in insertion order, and the 501st insertion evicts (detaches)
exactly the first decal. -/
theorem addDecal_bounded_fifo :
    (∀ decals d, ((addDecal decals d).1).length ≤ 500) ∧
    insertSeq 501 = List.range' 2 500 ∧
    (insertSeq 501).length = 500 ∧
    (addDecal (insertSeq 500) 501).2 = [1] := by
  have h500 : insertSeq 500 = List.range' 1 500 := insertSeq_le_500 500 le_rfl
  have hfull : List.range' 1 500 ++ [501] = List.range' 1 501 := by
    have h := @List.range'_concat 1 1 500
    norm_num at h
    exact h.symm
  have hsplit : List.range' 1 501 = 1 :: List.range' 2 500 := by
    rw [List.range'_succ]
  have hev : addDecal (insertSeq 500) 501 = (List.range' 2 500, [1]) := by
    rw [h500, addDecal, hfull, hsplit, evictLoop,
      if_pos (by simp only [List.length_cons, List.length_range']; omega),
      evictLoop_small _ (by simp only [List.length_range']; omega)]
  have h501 : insertSeq 501 = (addDecal (insertSeq 500) 501).1 := by
    unfold insertSeq
    rw [List.range_succ, List.foldl_append]
    rfl
  refine ⟨fun decals d => evictLoop_fst_length _, ?_, ?_, ?_⟩
  · rw [h501, hev]
  · rw [h501, hev]
    simp [List.length_range']
  · rw [hev]

/-! ## Terrain filters: exact-rational model -/

/-- The subset of the TerrainOptions interface (terraints/core) consulted by
the filters modelled here.  easing = none models an absent easing property;
Clamp installs Linear in that case. -/
structure TerrainOptions where
  minHeight : ℚ
  maxHeight : ℚ
  stretch : Bool
  easing : Option (ℚ → ℚ)

/-- Linear easing: the identity function. -/
def Linear (x : ℚ) : ℚ := x

/-- Minimum of a buffer as computed by the scanning loops of the filters (the
initial Infinity sentinel is replaced by the first element; the value for the
empty buffer, Infinity in the source, is a placeholder here and is never used
by the theorems below). -/
def listMin : List ℚ → ℚ
  | [] => 0
  | x :: xs => xs.foldl min x

/-- Maximum of a buffer, dual to listMin. -/
def listMax : List ℚ → ℚ
  | [] => 0
  | x :: xs => xs.foldl max x

theorem foldl_min_le_init (xs : List ℚ) (a : ℚ) : xs.foldl min a ≤ a := by
  induction xs generalizing a with
  | nil => simp
  | cons x xs ih => exact le_trans (ih (min a x)) (min_le_left a x)

theorem foldl_min_le_mem {v : ℚ} (xs : List ℚ) (a : ℚ) (h : v ∈ xs) :
    xs.foldl min a ≤ v := by
  induction xs generalizing a with
  | nil => cases h
  | cons x xs ih =>
    rcases List.mem_cons.mp h with rfl | hv
    · exact le_trans (foldl_min_le_init xs (min a v)) (min_le_right a v)
    · exact ih (min a x) hv

theorem listMin_le_mem {v : ℚ} {g : List ℚ} (h : v ∈ g) : listMin g ≤ v := by
  cases g with
  | nil => cases h
  | cons x xs =>
    rcases List.mem_cons.mp h with rfl | hv
    · exact foldl_min_le_init xs v
    · exact foldl_min_le_mem xs x hv

theorem init_le_foldl_max (xs : List ℚ) (a : ℚ) : a ≤ xs.foldl max a := by
  induction xs generalizing a with
  | nil => simp
  | cons x xs ih => exact le_trans (le_max_left a x) (ih (max a x))

theorem mem_le_foldl_max {v : ℚ} (xs : List ℚ) (a : ℚ) (h : v ∈ xs) :
    v ≤ xs.foldl max a := by
  induction xs generalizing a with
  | nil => cases h
  | cons x xs ih =>
    rcases List.mem_cons.mp h with rfl | hv
    · exact le_trans (le_max_right a v) (init_le_foldl_max xs (max a v))
    · exact ih (max a x) hv

theorem le_listMax_of_mem {v : ℚ} {g : List ℚ} (h : v ∈ g) : v ≤ listMax g := by
  cases g with
  | nil => cases h
  | cons x xs =>
    rcases List.mem_cons.mp h with rfl | hv
    · exact init_le_foldl_max xs v
    · exact mem_le_foldl_max xs x hv

theorem foldl_min_map (f : ℚ → ℚ) (hf : Monotone f) :
    ∀ (xs : List ℚ) (a : ℚ), (xs.map f).foldl min (f a) = f (xs.foldl min a) := by
  intro xs
  induction xs with
  | nil => intro a; simp
  | cons x xs ih =>
    intro a
    simp only [List.map_cons, List.foldl_cons]
    rw [← hf.map_min, ih]

theorem foldl_max_map (f : ℚ → ℚ) (hf : Monotone f) :
    ∀ (xs : List ℚ) (a : ℚ), (xs.map f).foldl max (f a) = f (xs.foldl max a) := by
  intro xs
  induction xs with
  | nil => intro a; simp
  | cons x xs ih =>
    intro a
    simp only [List.map_cons, List.foldl_cons]
    rw [← hf.map_max, ih]

theorem listMin_map_mono (f : ℚ → ℚ) (hf : Monotone f) (g : List ℚ) (hg : g ≠ []) :
    listMin (g.map f) = f (listMin g) := by
  cases g with
  | nil => exact absurd rfl hg
  | cons x xs => simpa [listMin] using foldl_min_map f hf xs x

theorem listMax_map_mono (f : ℚ → ℚ) (hf : Monotone f) (g : List ℚ) (hg : g ≠ []) :
    listMax (g.map f) = f (listMax g) := by
  cases g with
  | nil => exact absurd rfl hg
  | cons x xs => simpa [listMax] using foldl_max_map f hf xs x

/-- Clamp (src/terraints/filter.ts lines 15-38): rescale the buffer from its
actual range onto the target range through the easing function.  Exact
rational model of the float arithmetic; for the degenerate zero-range case,
where the source produces NaN, see ClampJS further below. -/
def Clamp (g : List ℚ) (options : TerrainOptions) : List ℚ :=
  let ease := options.easing.getD Linear
  let mn := listMin g
  let mx := listMax g
  let actualRange := mx - mn
  let optMax := options.maxHeight
  let optMin := options.minHeight
  let targetMax := if options.stretch then optMax else if mx < optMax then mx else optMax
  let targetMin := if options.stretch then optMin else if mn > optMin then mn else optMin
  let range := if targetMax < targetMin then optMax - targetMin else targetMax - targetMin
  g.map (fun v => ease ((v - mn) / actualRange) * range + optMin)

/-- C5: for every buffer whose values are not all equal and every option set
with stretch = true, the default (identity) easing and coherent height bounds,
Clamp maps the buffer exactly onto [minHeight, maxHeight]: the new minimum is
minHeight and the new maximum is maxHeight (exact arithmetic, hence within any
floating tolerance). -/
theorem Clamp_stretch_attains_bounds (g : List ℚ) (options : TerrainOptions)
    (hnc : ∃ a ∈ g, ∃ b ∈ g, a ≠ b)
    (hstretch : options.stretch = true) (heas : options.easing = none)
    (hmm : options.minHeight ≤ options.maxHeight) :
    listMin (Clamp g options) = options.minHeight ∧
    listMax (Clamp g options) = options.maxHeight := by
  obtain ⟨a, ha, b, hb, hab⟩ := hnc
  have hg : g ≠ [] := by
    intro h
    subst h
    cases ha
  have hlt : listMin g < listMax g := by
    by_contra h
    push_neg at h
    have h1 := listMin_le_mem ha
    have h2 := le_listMax_of_mem ha
    have h3 := listMin_le_mem hb
    have h4 := le_listMax_of_mem hb
    exact hab (by linarith)
  have hRpos : 0 < listMax g - listMin g := sub_pos.mpr hlt
  have hmono : Monotone (fun v =>
      (v - listMin g) / (listMax g - listMin g) *
        (options.maxHeight - options.minHeight) + options.minHeight) := by
    intro x y hxy
    have hdiv : (x - listMin g) / (listMax g - listMin g) ≤
        (y - listMin g) / (listMax g - listMin g) :=
      (div_le_div_iff_of_pos_right hRpos).mpr (by linarith)
    have := mul_le_mul_of_nonneg_right hdiv (sub_nonneg.mpr hmm)
    simpa using add_le_add_right this options.minHeight
  have hclamp : Clamp g options = g.map (fun v =>
      (v - listMin g) / (listMax g - listMin g) *
        (options.maxHeight - options.minHeight) + options.minHeight) := by
    simp only [Clamp, heas, hstretch, Option.getD_none, if_true]
    rw [if_neg (not_lt.mpr hmm)]
    rfl
  constructor
  · rw [hclamp, listMin_map_mono _ hmono g hg, sub_self, zero_div, zero_mul, zero_add]
  · rw [hclamp, listMax_map_mono _ hmono g hg, div_self (ne_of_gt hRpos), one_mul,
      sub_add_cancel]

/-- Witness for Clamp_stretch_attains_bounds on the buffer [0, 1] with bounds
[5, 7], stretch = true and the default easing. -/
theorem Clamp_stretch_attains_bounds_witness :
    (∃ a ∈ ([0, 1] : List ℚ), ∃ b ∈ ([0, 1] : List ℚ), a ≠ b) ∧
    listMin (Clamp [0, 1] ⟨5, 7, true, none⟩) = 5 ∧
    listMax (Clamp [0, 1] ⟨5, 7, true, none⟩) = 7 := by
  refine ⟨⟨0, by simp, 1, by simp, by norm_num⟩, ?_⟩
  exact Clamp_stretch_attains_bounds [0, 1] ⟨5, 7, true, none⟩
    ⟨0, by simp, 1, by simp, by norm_num⟩ rfl rfl (by norm_num)

/-! ## JS number semantics for the degenerate Clamp case -/

/-- A JS double as it occurs in the terrain filters: an exact rational, a
signed infinity, or NaN.  Signed zero is not distinguished; it never matters
for the computations modelled here. -/
inductive JSNum where
  | num (q : ℚ)
  | posInf
  | negInf
  | nan
deriving DecidableEq

/-- The JS comparison a < b; false whenever either side is NaN. -/
def jsLt : JSNum → JSNum → Bool
  | .num a, .num b => a < b
  | .num _, .posInf => true
  | .negInf, .num _ => true
  | .negInf, .posInf => true
  | _, _ => false

/-- JS subtraction on doubles. -/
def jsSub : JSNum → JSNum → JSNum
  | .num a, .num b => .num (a - b)
  | .num _, .posInf => .negInf
  | .num _, .negInf => .posInf
  | .posInf, .num _ => .posInf
  | .posInf, .negInf => .posInf
  | .negInf, .num _ => .negInf
  | .negInf, .posInf => .negInf
  | _, _ => .nan

/-- JS addition on doubles. -/
def jsAdd : JSNum → JSNum → JSNum
  | .num a, .num b => .num (a + b)
  | .num _, .posInf => .posInf
  | .posInf, .num _ => .posInf
  | .posInf, .posInf => .posInf
  | .num _, .negInf => .negInf
  | .negInf, .num _ => .negInf
  | .negInf, .negInf => .negInf
  | _, _ => .nan

/-- JS multiplication on doubles. -/
def jsMul : JSNum → JSNum → JSNum
  | .num a, .num b => .num (a * b)
  | .num a, .posInf => if a = 0 then .nan else if 0 < a then .posInf else .negInf
  | .num a, .negInf => if a = 0 then .nan else if 0 < a then .negInf else .posInf
  | .posInf, .num b => if b = 0 then .nan else if 0 < b then .posInf else .negInf
  | .negInf, .num b => if b = 0 then .nan else if 0 < b then .negInf else .posInf
  | .posInf, .posInf => .posInf
  | .posInf, .negInf => .negInf
  | .negInf, .posInf => .negInf
  | .negInf, .negInf => .posInf
  | _, _ => .nan

/-- JS division on doubles (sign of zero ignored: a positive dividend over
zero is taken to +Infinity).  The case that matters below is 0 / 0 = NaN. -/
def jsDiv : JSNum → JSNum → JSNum
  | .num a, .num b =>
    if b = 0 then (if a = 0 then .nan else if 0 < a then .posInf else .negInf)
    else .num (a / b)
  | .num _, .posInf => .num 0
  | .num _, .negInf => .num 0
  | .posInf, .num b => if 0 ≤ b then .posInf else .negInf
  | .negInf, .num b => if 0 ≤ b then .negInf else .posInf
  | _, _ => .nan

/-- The minimum scan of Clamp over JS doubles: min starts at +Infinity and is
replaced whenever the current element compares below it. -/
def jsListMin (g : List JSNum) : JSNum :=
  g.foldl (fun m v => if jsLt v m then v else m) .posInf

/-- The maximum scan of Clamp over JS doubles, starting at -Infinity. -/
def jsListMax (g : List JSNum) : JSNum :=
  g.foldl (fun m v => if jsLt m v then v else m) .negInf

/-- Clamp (src/terraints/filter.ts lines 15-38) over JS doubles, faithful to
the float control flow: no guard exists for a zero actual range, so the
division (v - min) / actualRange is performed unconditionally.  easing = none
models an absent easing property defaulted to Linear (the identity). -/
def ClampJS (g : List JSNum) (minHeight maxHeight : JSNum) (stretch : Bool)
    (easing : Option (JSNum → JSNum)) : List JSNum :=
  let ease := easing.getD id
  let mn := jsListMin g
  let mx := jsListMax g
  let actualRange := jsSub mx mn
  let targetMax := if stretch then maxHeight else if jsLt mx maxHeight then mx else maxHeight
  let targetMin := if stretch then minHeight else if jsLt minHeight mn then mn else minHeight
  let range := if jsLt targetMax targetMin then jsSub maxHeight targetMin
               else jsSub targetMax targetMin
  g.map (fun v => jsAdd (jsMul (ease (jsDiv (jsSub v mn) actualRange)) range) minHeight)

/-- C6 (code-bug evidence): on the constant buffer [1, 1] with bounds [0, 10]
and stretch = true the actual range is zero, Clamp computes (1 - 1) / 0 = NaN
with no guard, and NaN is written into every cell; the cells are not left at
the target minimum 0. -/
theorem Clamp_zero_range_writes_nan :
    ClampJS [.num 1, .num 1] (.num 0) (.num 10) true none = [.nan, .nan] ∧
    JSNum.nan ≠ JSNum.num 0 := by
  constructor
  · with_unfolding_all rfl
  · intro h
    cases h

/-! ## SmoothConservative -/

/-- The neighbor offsets (n, m) admitted by the SmoothConservative scan
(src/terraints/filter.ts line 278): the source condition requires both n and m
to be truthy (nonzero), so only the four diagonal offsets remain, in loop
order. -/
def diagOffsets : List (ℤ × ℤ) := [(-1, -1), (-1, 1), (1, -1), (1, 1)]

/-- All eight non-center offsets of the 3x3 neighborhood, in loop order; used
by the claim-level description of SmoothConservative. -/
def allOffsets : List (ℤ × ℤ) :=
  [(-1, -1), (-1, 0), (-1, 1), (0, -1), (0, 1), (1, -1), (1, 0), (1, 1)]

/-- The in-bounds neighbor values of cell (i, j) for the given offset set:
offset (n, m) contributes g[(j+n)*xl + (i+m)] when the linear key is a valid
index (the typeof check of the source) and the column and row offsets stay
inside the grid. -/
def neighborVals (g : List ℚ) (xl yl i j : ℕ) (offs : List (ℤ × ℤ)) : List ℚ :=
  offs.filterMap (fun nm =>
    let key := ((j : ℤ) + nm.1) * (xl : ℤ) + ((i : ℤ) + nm.2)
    if 0 ≤ key ∧ key < (g.length : ℤ) ∧ 0 ≤ (i : ℤ) + nm.2 ∧ (i : ℤ) + nm.2 < (xl : ℤ) ∧
        0 ≤ (j : ℤ) + nm.1 ∧ (j : ℤ) + nm.1 < (yl : ℤ)
    then some (g.getD key.toNat 0) else none)

/-- One cell of SmoothConservative (src/terraints/filter.ts lines 269-295):
the cell value clamped to the interval centered at the midpoint of its
admitted neighbors with radius halfdiff times the multiplier; a cell with no
admitted neighbor is left unchanged (in the source the scan sentinels survive,
middle becomes NaN and both comparisons are false). -/
def smoothConservativeCell (g : List ℚ) (xl yl : ℕ) (multiplier : ℚ) (i j : ℕ)
    (offs : List (ℤ × ℤ)) : ℚ :=
  let v := g.getD (j * xl + i) 0
  let ns := neighborVals g xl yl i j offs
  if ns = [] then v
  else
    let mx := listMax ns
    let mn := listMin ns
    let halfdiff := (mx - mn) * (1 / 2)
    let middle := mn + halfdiff
    let hi := middle + halfdiff * multiplier
    let lo := middle - halfdiff * multiplier
    if v > hi then hi else if v < lo then lo else v

/-- SmoothConservative: every in-grid cell k = j*xl + i of the scratch buffer
is the clamped value of cell (i, j); cells of the backing array beyond the
grid, never written by the loop, keep the zero the scratch Float32Array was
initialised with.  The result is copied back over g. -/
def SmoothConservative (g : List ℚ) (xl yl : ℕ) (multiplier : ℚ) : List ℚ :=
  (List.range g.length).map (fun k =>
    if k < xl * yl then smoothConservativeCell g xl yl multiplier (k % xl) (k / xl) diagOffsets
    else 0)

/-- Modelled from the claim text, for comparison with the source behavior:
the same clamp but over all eight surrounding cells. -/
def SmoothConservativeClaim (g : List ℚ) (xl yl : ℕ) (multiplier : ℚ) : List ℚ :=
  (List.range g.length).map (fun k =>
    if k < xl * yl then smoothConservativeCell g xl yl multiplier (k % xl) (k / xl) allOffsets
    else 0)

/-- C7 counterexample: on the 3x3 grid [0,10,0, 10,20,10, 0,10,0] with
multiplier 1, the source clamps the center cell against its diagonal
neighbors only (all equal to 0), producing 0, while clamping against all
eight surrounding cells would produce 10, so the claimed 8-neighbor reading
is false of the code. -/
theorem smoothConservative_not_eight_neighbors :
    (SmoothConservative [0, 10, 0, 10, 20, 10, 0, 10, 0] 3 3 1).getD 4 0 = 0 ∧
    (SmoothConservativeClaim [0, 10, 0, 10, 20, 10, 0, 10, 0] 3 3 1).getD 4 0 = 10 ∧
    SmoothConservative [0, 10, 0, 10, 20, 10, 0, 10, 0] 3 3 1 ≠
      SmoothConservativeClaim [0, 10, 0, 10, 20, 10, 0, 10, 0] 3 3 1 := by
  have h0 : (SmoothConservative [0, 10, 0, 10, 20, 10, 0, 10, 0] 3 3 1).getD 4 0 = 0 := by
    with_unfolding_all rfl
  have h10 : (SmoothConservativeClaim [0, 10, 0, 10, 20, 10, 0, 10, 0] 3 3 1).getD 4 0 = 10 := by
    with_unfolding_all rfl
  refine ⟨h0, h10, ?_⟩
  intro h
  rw [h, h10] at h0
  norm_num at h0

/-- Lower end of the SmoothConservative clamp interval of cell (i, j):
middle - halfdiff * multiplier, spelled with listMin and listMax of the
admitted diagonal neighborhood. -/
def scLo (g : List ℚ) (xl yl i j : ℕ) (multiplier : ℚ) : ℚ :=
  listMin (neighborVals g xl yl i j diagOffsets) +
    (listMax (neighborVals g xl yl i j diagOffsets) -
      listMin (neighborVals g xl yl i j diagOffsets)) * (1 / 2) -
    (listMax (neighborVals g xl yl i j diagOffsets) -
      listMin (neighborVals g xl yl i j diagOffsets)) * (1 / 2) * multiplier

/-- Upper end of the SmoothConservative clamp interval of cell (i, j):
middle + halfdiff * multiplier. -/
def scHi (g : List ℚ) (xl yl i j : ℕ) (multiplier : ℚ) : ℚ :=
  listMin (neighborVals g xl yl i j diagOffsets) +
    (listMax (neighborVals g xl yl i j diagOffsets) -
      listMin (neighborVals g xl yl i j diagOffsets)) * (1 / 2) +
    (listMax (neighborVals g xl yl i j diagOffsets) -
      listMin (neighborVals g xl yl i j diagOffsets)) * (1 / 2) * multiplier

/-- C7 amended: every in-grid cell is clamped into the interval centered at
the midpoint of its in-bounds DIAGONAL neighbors (row and column offset both
nonzero; the source condition excludes the four edge-adjacent cells) with
radius multiplier times their half-range, and a cell already inside that
interval is unchanged; stated for cells with at least one admitted neighbor
and a nonnegative multiplier. -/
theorem smoothConservative_diagonal_clamp (g : List ℚ) (xl yl : ℕ) (multiplier : ℚ)
    (hmul : 0 ≤ multiplier) (i j : ℕ) (hij : i < xl ∧ j < yl)
    (hlen : g.length = xl * yl)
    (hne : neighborVals g xl yl i j diagOffsets ≠ []) :
    scLo g xl yl i j multiplier ≤ (SmoothConservative g xl yl multiplier).getD (j * xl + i) 0 ∧
    (SmoothConservative g xl yl multiplier).getD (j * xl + i) 0 ≤ scHi g xl yl i j multiplier ∧
    (scLo g xl yl i j multiplier ≤ g.getD (j * xl + i) 0 →
      g.getD (j * xl + i) 0 ≤ scHi g xl yl i j multiplier →
      (SmoothConservative g xl yl multiplier).getD (j * xl + i) 0 = g.getD (j * xl + i) 0) := by
  obtain ⟨hi, hj⟩ := hij
  have hxl : 0 < xl := lt_of_le_of_lt (Nat.zero_le i) hi
  have hk : j * xl + i < xl * yl := by
    calc j * xl + i < j * xl + xl := by omega
    _ = (j + 1) * xl := by ring
    _ ≤ yl * xl := Nat.mul_le_mul_right xl (by omega)
    _ = xl * yl := Nat.mul_comm yl xl
  have hmod : (j * xl + i) % xl = i := by
    rw [Nat.add_comm, Nat.add_mul_mod_self_right, Nat.mod_eq_of_lt hi]
  have hdiv : (j * xl + i) / xl = j := by
    rw [Nat.add_comm, Nat.add_mul_div_right _ _ hxl, Nat.div_eq_of_lt hi, Nat.zero_add]
  have hout : (SmoothConservative g xl yl multiplier).getD (j * xl + i) 0 =
      smoothConservativeCell g xl yl multiplier i j diagOffsets := by
    unfold SmoothConservative
    rw [List.getD_eq_getElem?_getD, List.getElem?_map, List.getElem?_range (by omega)]
    simp only [Option.map_some', Option.getD_some]
    rw [if_pos hk, hmod, hdiv]
  obtain ⟨n0, t0, hns⟩ := List.exists_cons_of_ne_nil hne
  have hmn : listMin (neighborVals g xl yl i j diagOffsets) ≤ n0 :=
    listMin_le_mem (by rw [hns]; exact List.mem_cons_self n0 t0)
  have hmx : n0 ≤ listMax (neighborVals g xl yl i j diagOffsets) :=
    le_listMax_of_mem (by rw [hns]; exact List.mem_cons_self n0 t0)
  have hcell : smoothConservativeCell g xl yl multiplier i j diagOffsets =
      (if g.getD (j * xl + i) 0 > scHi g xl yl i j multiplier then scHi g xl yl i j multiplier
       else if g.getD (j * xl + i) 0 < scLo g xl yl i j multiplier then scLo g xl yl i j multiplier
       else g.getD (j * xl + i) 0) := by
    simp only [smoothConservativeCell, if_neg hne]
    rfl
  rw [hout, hcell]
  have hlohi : scLo g xl yl i j multiplier ≤ scHi g xl yl i j multiplier := by
    unfold scLo scHi
    nlinarith
  split_ifs with h1 h2
  · exact ⟨hlohi, le_refl _, fun _ hle => absurd hle (not_le.mpr h1)⟩
  · exact ⟨le_refl _, hlohi, fun hge _ => absurd hge (not_le.mpr h2)⟩
  · exact ⟨not_lt.mp h2, not_lt.mp h1, fun _ _ => rfl⟩

/-- Witness for smoothConservative_diagonal_clamp at the corner cell (0, 0) of
the 3x3 grid used in the counterexample, whose single diagonal neighbor is the
center value 20. -/
theorem smoothConservative_diagonal_clamp_witness :
    ((0 : ℚ) ≤ 1) ∧ (0 < 3 ∧ 0 < 3) ∧
    ([0, 10, 0, 10, 20, 10, 0, 10, 0] : List ℚ).length = 3 * 3 ∧
    neighborVals [0, 10, 0, 10, 20, 10, 0, 10, 0] 3 3 0 0 diagOffsets ≠ [] ∧
    (scLo [0, 10, 0, 10, 20, 10, 0, 10, 0] 3 3 0 0 1 ≤
      (SmoothConservative [0, 10, 0, 10, 20, 10, 0, 10, 0] 3 3 1).getD (0 * 3 + 0) 0 ∧
    (SmoothConservative [0, 10, 0, 10, 20, 10, 0, 10, 0] 3 3 1).getD (0 * 3 + 0) 0 ≤
      scHi [0, 10, 0, 10, 20, 10, 0, 10, 0] 3 3 0 0 1 ∧
    (scLo [0, 10, 0, 10, 20, 10, 0, 10, 0] 3 3 0 0 1 ≤
        ([0, 10, 0, 10, 20, 10, 0, 10, 0] : List ℚ).getD (0 * 3 + 0) 0 →
      ([0, 10, 0, 10, 20, 10, 0, 10, 0] : List ℚ).getD (0 * 3 + 0) 0 ≤
        scHi [0, 10, 0, 10, 20, 10, 0, 10, 0] 3 3 0 0 1 →
      (SmoothConservative [0, 10, 0, 10, 20, 10, 0, 10, 0] 3 3 1).getD (0 * 3 + 0) 0 =
        ([0, 10, 0, 10, 20, 10, 0, 10, 0] : List ℚ).getD (0 * 3 + 0) 0)) := by
  have hne : neighborVals [0, 10, 0, 10, 20, 10, 0, 10, 0] 3 3 0 0 diagOffsets ≠ [] := by
    have hv : neighborVals [0, 10, 0, 10, 20, 10, 0, 10, 0] 3 3 0 0 diagOffsets = [20] := by
      with_unfolding_all rfl
    rw [hv]
    simp
  refine ⟨by norm_num, ⟨by norm_num, by norm_num⟩, by simp, hne, ?_⟩
  exact smoothConservative_diagonal_clamp [0, 10, 0, 10, 20, 10, 0, 10, 0] 3 3 1
    (by norm_num) 0 0 ⟨by norm_num, by norm_num⟩ (by simp) hne

/-! ## Image heightmaps -/

/-- One pixel of toHeightmap (src/terraints/images.ts lines 76-82): the three
color channels all hold round(((z - min) / spread) * 255) and alpha is 255,
where z is the vertex elevation g[i*3+2]. -/
def toHeightmapPixel (z minH maxH : ℚ) : ℤ × ℤ × ℤ × ℤ :=
  (round ((z - minH) / (maxH - minH) * 255), round ((z - minH) / (maxH - minH) * 255),
   round ((z - minH) / (maxH - minH) * 255), 255)

/-- toHeightmap over the vertex list (each vertex a triple (x, y, z)), in the
branch where minHeight and maxHeight are both supplied by the options.
Produces the RGBA channel quadruples of the canvas image data row-major, one
pixel per vertex. -/
def toHeightmap (g : List (ℚ × ℚ × ℚ)) (minH maxH : ℚ) : List (ℤ × ℤ × ℤ × ℤ) :=
  g.map (fun p => toHeightmapPixel p.2.2 minH maxH)

/-- fromHeightmap (src/terraints/images.ts lines 25-31): each cell becomes
(r + g + b) / 765 * spread + minHeight. -/
def fromHeightmap (data : List (ℤ × ℤ × ℤ × ℤ)) (minH maxH : ℚ) : List ℚ :=
  data.map (fun d =>
    ((d.1 : ℚ) + (d.2.1 : ℚ) + (d.2.2.1 : ℚ)) / 765 * (maxH - minH) + minH)

theorem heightmap_roundtrip_cell (z minH maxH : ℚ) (hlt : minH < maxH) :
    |(((round ((z - minH) / (maxH - minH) * 255) : ℤ) : ℚ) +
        ((round ((z - minH) / (maxH - minH) * 255) : ℤ) : ℚ) +
        ((round ((z - minH) / (maxH - minH) * 255) : ℤ) : ℚ)) / 765 *
        (maxH - minH) + minH - z| ≤ (maxH - minH) / 255 := by
  have hspos : 0 < maxH - minH := sub_pos.mpr hlt
  have hsne : maxH - minH ≠ 0 := ne_of_gt hspos
  set x := (z - minH) / (maxH - minH) * 255 with hxdef
  set c : ℚ := ((round x : ℤ) : ℚ) with hcdef
  have hz : x / 255 * (maxH - minH) = z - minH := by
    rw [hxdef]
    field_simp
    ring
  have key : (c + c + c) / 765 * (maxH - minH) + minH - z =
      (maxH - minH) * (c - x) / 255 := by
    linear_combination hz
  rw [key]
  have hr : |c - x| ≤ 1 / 2 := by
    rw [hcdef, abs_sub_comm]
    exact abs_sub_round x
  have habs : |(maxH - minH) * (c - x) / 255| = (maxH - minH) * |c - x| / 255 := by
    rw [abs_div, abs_mul, abs_of_pos hspos]
    norm_num
  rw [habs]
  have step1 : (maxH - minH) * |c - x| / 255 ≤ (maxH - minH) * (1 / 2) / 255 :=
    (div_le_div_iff_of_pos_right (by norm_num : (0 : ℚ) < 255)).mpr
      (mul_le_mul_of_nonneg_left hr hspos.le)
  have step2 : (maxH - minH) * (1 / 2) / 255 ≤ (maxH - minH) / 255 := by
    linarith
  linarith

/-- C9: converting a heightfield with known bounds to an 8-bit image heightmap
and back reproduces every elevation within the quantization tolerance
(maxHeight - minHeight) / 255. -/
theorem heightmap_roundtrip_tolerance (g : List (ℚ × ℚ × ℚ)) (minH maxH : ℚ)
    (hlt : minH < maxH)
    (hin : ∀ p ∈ g, minH ≤ p.2.2 ∧ p.2.2 ≤ maxH) :
    List.Forall₂ (fun (p : ℚ × ℚ × ℚ) w => |w - p.2.2| ≤ (maxH - minH) / 255) g
      (fromHeightmap (toHeightmap g minH maxH) minH maxH) := by
  induction g with
  | nil => simp [toHeightmap, fromHeightmap]
  | cons p t ih =>
    simp only [toHeightmap, fromHeightmap, toHeightmapPixel, List.map_cons]
    refine List.Forall₂.cons ?_ ?_
    · have h := heightmap_roundtrip_cell p.2.2 minH maxH hlt
      simpa using h
    · have h := ih (fun q hq => hin q (List.mem_cons_of_mem p hq))
      simpa [toHeightmap, fromHeightmap, toHeightmapPixel] using h

/-- Witness for heightmap_roundtrip_tolerance on a single vertex of elevation
5 with bounds [0, 10]. -/
theorem heightmap_roundtrip_tolerance_witness :
    ((0 : ℚ) < 10) ∧
    (∀ p ∈ ([((0 : ℚ), (0 : ℚ), (5 : ℚ))] : List (ℚ × ℚ × ℚ)),
      (0 : ℚ) ≤ p.2.2 ∧ p.2.2 ≤ 10) ∧
    List.Forall₂ (fun (p : ℚ × ℚ × ℚ) w => |w - p.2.2| ≤ ((10 : ℚ) - 0) / 255)
      [((0 : ℚ), (0 : ℚ), (5 : ℚ))]
      (fromHeightmap (toHeightmap [((0 : ℚ), (0 : ℚ), (5 : ℚ))] 0 10) 0 10) := by
  have hin : ∀ p ∈ ([((0 : ℚ), (0 : ℚ), (5 : ℚ))] : List (ℚ × ℚ × ℚ)),
      (0 : ℚ) ≤ p.2.2 ∧ p.2.2 ≤ 10 := by
    intro p hp
    rw [List.mem_singleton] at hp
    subst hp
    norm_num
  exact ⟨by norm_num, hin,
    heightmap_roundtrip_tolerance [((0 : ℚ), (0 : ℚ), (5 : ℚ))] 0 10 (by norm_num) hin⟩

/-! ## TerrainAnalyzer -/

/-- Running sums of the six second-moment entries accumulated by
getFittedPlaneNormal over centroid-relative coordinates. -/
structure CovSums where
  xx : ℚ
  xy : ℚ
  xz : ℚ
  yy : ℚ
  yz : ℚ
  zz : ℚ

/-- The accumulation loop of getFittedPlaneNormal (src/unnamed/part_004 lines
460-469). -/
def covSums (points : List (ℚ × ℚ × ℚ)) (centroid : ℚ × ℚ × ℚ) : CovSums :=
  points.foldl
    (fun s p =>
      ⟨s.xx + (p.1 - centroid.1) * (p.1 - centroid.1),
       s.xy + (p.1 - centroid.1) * (p.2.1 - centroid.2.1),
       s.xz + (p.1 - centroid.1) * (p.2.2 - centroid.2.2),
       s.yy + (p.2.1 - centroid.2.1) * (p.2.1 - centroid.2.1),
       s.yz + (p.2.1 - centroid.2.1) * (p.2.2 - centroid.2.2),
       s.zz + (p.2.2 - centroid.2.2) * (p.2.2 - centroid.2.2)⟩)
    ⟨0, 0, 0, 0, 0, 0⟩

/-- getFittedPlaneNormal (src/unnamed/part_004 lines 450-497).  points is the
vertex list; the source receives the flat coordinate array, whose length n is
three per vertex, and throws when n < 3.  Throws also when the largest of the
three candidate determinants is nonpositive.  The final normalize() call, a
positive rescaling that raises nothing, is omitted: the claims settled here
concern only whether an error is thrown. -/
def getFittedPlaneNormal (points : List (ℚ × ℚ × ℚ)) (centroid : ℚ × ℚ × ℚ) :
    Except String (ℚ × ℚ × ℚ) :=
  if 3 * points.length < 3 then .error "At least three points are required to fit a plane"
  else
    let s := covSums points centroid
    let xDet := s.yy * s.zz - s.yz * s.yz
    let yDet := s.xx * s.zz - s.xz * s.xz
    let zDet := s.xx * s.yy - s.xy * s.xy
    let maxDet := max xDet (max yDet zDet)
    if maxDet ≤ 0 then .error "The points do not span a plane"
    else if maxDet = xDet then
      .ok (1, (s.xz * s.yz - s.xy * s.zz) / xDet, (s.xy * s.yz - s.xz * s.yy) / xDet)
    else if maxDet = yDet then
      .ok ((s.yz * s.xz - s.xy * s.zz) / yDet, 1, (s.xy * s.xz - s.yz * s.xx) / yDet)
    else
      .ok ((s.yz * s.xy - s.xz * s.yy) / zDet, (s.xz * s.xy - s.yz * s.xx) / zDet, 1)

/-- The centroid Analyze passes to the fitted-plane solve: the mesh position
with its z component replaced by the mean elevation. -/
def analyzeCentroid (positions : List (ℚ × ℚ × ℚ)) (meshPosition : ℚ × ℚ × ℚ) :
    ℚ × ℚ × ℚ :=
  (meshPosition.1, meshPosition.2.1,
    (positions.map (fun p => p.2.2)).sum / ((positions.map (fun p => p.2.2)).length : ℚ))

/-- The report fields of Analyze that feed the claims settled here. -/
structure AnalyzeReport where
  sampleSize : ℕ
  meanElevation : ℚ
  fittedPlaneNormal : ℚ × ℚ × ℚ

/-- Analyze (src/unnamed/part_004 lines 157-356): models the vertex-count
guard, the elevation extraction (toArray1D keeps every third coordinate, the
z of each vertex), the mean elevation, the centroid and the fitted-plane
solve.  The remaining descriptive statistics (percentiles, skew, kurtosis,
slope histograms, ruggedness) are pure arithmetic on these data and raise
nothing in the source; they are omitted from the report. -/
def Analyze (positions : List (ℚ × ℚ × ℚ)) (meshPosition : ℚ × ℚ × ℚ) :
    Except String AnalyzeReport :=
  if positions.length < 3 then .error "Not enough vertices to analyze"
  else
    let meanElevation :=
      (positions.map (fun p => p.2.2)).sum / ((positions.map (fun p => p.2.2)).length : ℚ)
    let centroid := analyzeCentroid positions meshPosition
    match getFittedPlaneNormal positions centroid with
    | .error e => .error e
    | .ok nrm => .ok ⟨positions.length, meanElevation, nrm⟩

theorem getFittedPlaneNormal_error_iff (points : List (ℚ × ℚ × ℚ))
    (centroid : ℚ × ℚ × ℚ) (hp : 1 ≤ points.length) :
    (∃ e, getFittedPlaneNormal points centroid = .error e) ↔
      ((covSums points centroid).yy * (covSums points centroid).zz -
          (covSums points centroid).yz * (covSums points centroid).yz ≤ 0 ∧
        (covSums points centroid).xx * (covSums points centroid).zz -
          (covSums points centroid).xz * (covSums points centroid).xz ≤ 0 ∧
        (covSums points centroid).xx * (covSums points centroid).yy -
          (covSums points centroid).xy * (covSums points centroid).xy ≤ 0) := by
  simp only [getFittedPlaneNormal]
  rw [if_neg (by omega)]
  by_cases hd : max ((covSums points centroid).yy * (covSums points centroid).zz -
      (covSums points centroid).yz * (covSums points centroid).yz)
      (max ((covSums points centroid).xx * (covSums points centroid).zz -
        (covSums points centroid).xz * (covSums points centroid).xz)
        ((covSums points centroid).xx * (covSums points centroid).yy -
          (covSums points centroid).xy * (covSums points centroid).xy)) ≤ 0
  · rw [if_pos hd]
    simp only [max_le_iff] at hd
    constructor
    · intro _
      exact ⟨hd.1, hd.2.1, hd.2.2⟩
    · intro _
      exact ⟨_, rfl⟩
  · rw [if_neg hd]
    constructor
    · rintro ⟨e, he⟩
      split_ifs at he
    · rintro ⟨h1, h2, h3⟩
      exact absurd (max_le_iff.mpr ⟨h1, max_le_iff.mpr ⟨h2, h3⟩⟩) hd

/-- C8: Analyze raises exactly when its preconditions fail: an error is
returned iff fewer than 3 vertices are supplied, or all three candidate
determinants of the fitted-plane solve (yy*zz - yz^2, xx*zz - xz^2,
xx*yy - xy^2 over centroid-relative sums) are nonpositive; otherwise a report
is returned and nothing is raised. -/
theorem Analyze_error_iff (positions : List (ℚ × ℚ × ℚ)) (meshPosition : ℚ × ℚ × ℚ) :
    (∃ e, Analyze positions meshPosition = .error e) ↔
      (positions.length < 3 ∨
        ((covSums positions (analyzeCentroid positions meshPosition)).yy *
            (covSums positions (analyzeCentroid positions meshPosition)).zz -
          (covSums positions (analyzeCentroid positions meshPosition)).yz *
            (covSums positions (analyzeCentroid positions meshPosition)).yz ≤ 0 ∧
        (covSums positions (analyzeCentroid positions meshPosition)).xx *
            (covSums positions (analyzeCentroid positions meshPosition)).zz -
          (covSums positions (analyzeCentroid positions meshPosition)).xz *
            (covSums positions (analyzeCentroid positions meshPosition)).xz ≤ 0 ∧
        (covSums positions (analyzeCentroid positions meshPosition)).xx *
            (covSums positions (analyzeCentroid positions meshPosition)).yy -
          (covSums positions (analyzeCentroid positions meshPosition)).xy *
            (covSums positions (analyzeCentroid positions meshPosition)).xy ≤ 0)) := by
  simp only [Analyze]
  by_cases hlen : positions.length < 3
  · rw [if_pos hlen]
    constructor
    · intro _
      exact Or.inl hlen
    · intro _
      exact ⟨_, rfl⟩
  · rw [if_neg hlen]
    have hp : 1 ≤ positions.length := by omega
    have hiff := getFittedPlaneNormal_error_iff positions
      (analyzeCentroid positions meshPosition) hp
    constructor
    · rintro ⟨e, he⟩
      cases hpn : getFittedPlaneNormal positions (analyzeCentroid positions meshPosition) with
      | error e2 =>
        exact Or.inr (hiff.mp ⟨e2, hpn⟩)
      | ok nrm =>
        rw [hpn] at he
        simp at he
    · rintro (h | h)
      · exact absurd h hlen
      · obtain ⟨e, he⟩ := hiff.mpr h
        rw [he]
        exact ⟨e, rfl⟩

/-! ## The Step filter -/

/-- A Step bucket (src/terraints/filter.ts lines 323-336): minimum, maximum
and mean of its population slice.  For the empty slice the source reads
subset[0] and subset[length - 1], which are undefined, and computes the mean
0/0 = NaN; all three are modelled as none. -/
structure StepBucket where
  bmin : Option ℚ
  bmax : Option ℚ
  bavg : Option ℚ

/-- Build a bucket from its population slice. -/
def mkBucket (subset : List ℚ) : StepBucket :=
  ⟨subset.head?, subset.getLast?,
   if subset.isEmpty then none else some (subset.sum / (subset.length : ℚ))⟩

/-- Array.prototype.slice with JS index conversion: a NaN bound (modelled as
none, arising from arithmetic on an undefined levels count) converts to 0. -/
def jsSlice (l : List ℚ) (a b : Option ℕ) : List ℚ :=
  (l.take (b.getD 0)).drop (a.getD 0)

/-- Whether a cell matches a bucket: startHeight >= bucket.min and
startHeight <= bucket.max; a comparison against an undefined bound is
false. -/
def bucketMatches (v : ℚ) (b : StepBucket) : Bool :=
  match b.bmin, b.bmax with
  | some mn, some mx => decide (mn ≤ v) && decide (v ≤ mx)
  | _, _ => false

/-- Step (src/terraints/filter.ts lines 306-348).  levels = none models the
argument being omitted.  The bucket width inc = floor(l / levels) is computed
BEFORE the default level count is assigned, so an omitted levels gives
inc = NaN (none here); i*inc and (i+1)*inc are then NaN and every slice is
empty.  The default level count floor((l*0.5)^0.25) is written as iterated
integer square roots, which equals the floor of the real fourth root of
floor(l/2).  Each cell takes the mean of the first bucket whose [min, max]
range contains it and stays unchanged when no bucket matches. -/
def Step (g : List ℚ) (levels : Option ℕ) : List ℚ :=
  let l := g.length
  let inc : Option ℕ := levels.map (fun lv => l / lv)
  let lv := levels.getD (Nat.sqrt (Nat.sqrt (l / 2)))
  let heights := g.mergeSort (fun a b => decide (a ≤ b))
  let buckets := (List.range lv).map (fun i =>
    mkBucket (jsSlice heights (inc.map (fun x => i * x)) (inc.map (fun x => (i + 1) * x))))
  g.map (fun v =>
    match buckets.find? (fun b => bucketMatches v b) with
    | some b => b.bavg.getD v
    | none => v)

/-- C10: calling Step with the levels argument omitted leaves every cell of
the buffer unchanged: the bucket size is computed from the undefined value
before the default level count is assigned, every bucket is empty, and no
cell matches any bucket. -/
theorem Step_undefined_levels_identity (g : List ℚ) : Step g none = g := by
  simp only [Step, Option.map_none', Option.getD_none]
  have hfind : ∀ v : ℚ,
      List.find? (fun b => bucketMatches v b)
        (List.map (fun i =>
            mkBucket (jsSlice (g.mergeSort (fun a b => decide (a ≤ b))) none none))
          (List.range (Nat.sqrt (Nat.sqrt (g.length / 2))))) = none := by
    intro v
    rw [List.find?_eq_none]
    intro b hb
    rw [List.mem_map] at hb
    obtain ⟨i, hmem, rfl⟩ := hb
    simp [jsSlice, mkBucket, bucketMatches]
  simp only [hfind]
  simp

/-! ## Ballistic integration over the reals -/

/-- The drag coefficient curve drag_cd (src/ballistic_object.ts lines
231-242): a 7-parameter empirical fit evaluated at the Mach number M, with
M_p = 1.3, a = 0.1, b = 3.9, c = 0.217, d = 10, e = 2.5, f = -10, g = 5.6. -/
noncomputable def drag_cd (M : ℝ) : ℝ :=
  0.1 * Real.exp (-3.9 * M) + 0.217 / (1 + 10 * (M - 1.3) ^ 2) +
    2.5 / (M ^ (-10 : ℤ) + 5.6)

/-- The module-level gravity vector (0, -9.81, 0). -/
def gravityVec : ℝ × ℝ × ℝ := (0, -9.81, 0)

/-- Componentwise vector sum. -/
def vecAdd (a b : ℝ × ℝ × ℝ) : ℝ × ℝ × ℝ := (a.1 + b.1, a.2.1 + b.2.1, a.2.2 + b.2.2)

/-- Scalar multiple of a vector. -/
def vecScale (c : ℝ) (a : ℝ × ℝ × ℝ) : ℝ × ℝ × ℝ := (c * a.1, c * a.2.1, c * a.2.2)

/-- Euclidean length, as three.js Vector3.length computes it. -/
noncomputable def vecLength (a : ℝ × ℝ × ℝ) : ℝ :=
  Real.sqrt (a.1 ^ 2 + a.2.1 ^ 2 + a.2.2 ^ 2)

/-- three.js Vector3.normalize: scale by the reciprocal length. -/
noncomputable def vecNormalize (a : ℝ × ℝ × ℝ) : ℝ × ℝ × ℝ :=
  vecScale (1 / vecLength a) a

/-- The drag deceleration magnitude of BallisticObject.update line 177:
0.5 * 1.225 * 0.01 * drag_cd(vel / 343) * vel * vel / mass with mass 0.1.
It is computed and applied unconditionally; options.drag is never read. -/
noncomputable def dragForce (vel : ℝ) : ℝ :=
  0.5 * 1.225 * 0.01 * drag_cd (vel / 343) * vel * vel / 0.1

/-- One tick of the velocity update of BallisticObject.update (lines
169-182), in the branch with no ray hit: the speed is read first, then the
gravity impulse is added to v (line 176), then an acceleration consisting of
drag opposing the updated v PLUS GRAVITY AGAIN (line 179) is added scaled by
delta (line 180). -/
noncomputable def updateVelocity (v : ℝ × ℝ × ℝ) (delta : ℝ) : ℝ × ℝ × ℝ :=
  let vel := vecLength v
  let v1 := vecAdd v (vecScale delta gravityVec)
  let accel := vecAdd (vecScale (-dragForce vel) (vecNormalize v1)) gravityVec
  vecAdd v1 (vecScale delta accel)

theorem drag_cd_pos (M : ℝ) (hM : 0 < M) : 0 < drag_cd M := by
  unfold drag_cd
  have t1 : (0:ℝ) < 0.1 * Real.exp (-3.9 * M) := by positivity
  have t2 : (0:ℝ) < 0.217 / (1 + 10 * (M - 1.3) ^ 2) := by positivity
  have t3 : (0:ℝ) < 2.5 / (M ^ (-10 : ℤ) + 5.6) := by
    apply div_pos (by norm_num)
    have hz : (0:ℝ) < M ^ (-10 : ℤ) := zpow_pos hM _
    linarith
  linarith

/-- C2 (code-bug evidence): one tick from velocity (0, 100, 0).  The new
vertical velocity is exactly 100 - 2*9.81*delta - dragForce(100)*delta: the
gravity impulse is applied twice per tick (line 176 and again inside accel at
line 179) and a strictly positive drag force is applied although
options.drag is false, so the vertical velocity falls at effectively
19.62 m/s^2 or faster, the apex is reached by about t = 5.1 s, and the fall
back through zero happens near t = 10 s rather than the claimed 2v/g = 20.4 s. -/
theorem update_applies_gravity_twice (delta : ℝ) (_h0 : 0 < delta) (h1 : delta ≤ 1) :
    (updateVelocity (0, 100, 0) delta).2.1 =
      100 - 2 * 9.81 * delta - dragForce 100 * delta ∧
    0 < dragForce 100 := by
  have hcd : 0 < drag_cd (100 / 343) := drag_cd_pos _ (by norm_num)
  have hF : 0 < dragForce 100 := by
    unfold dragForce
    positivity
  refine ⟨?_, hF⟩
  have hpos : (0:ℝ) < 100 - 9.81 * delta := by nlinarith
  have hlen : vecLength ((0 : ℝ), (100 : ℝ), (0 : ℝ)) = 100 := by
    unfold vecLength
    rw [show (0:ℝ) ^ 2 + (100:ℝ) ^ 2 + (0:ℝ) ^ 2 = 100 ^ 2 by norm_num,
      Real.sqrt_sq (by norm_num : (0:ℝ) ≤ 100)]
  have hv1 : vecAdd ((0 : ℝ), (100 : ℝ), (0 : ℝ)) (vecScale delta gravityVec) =
      (0, 100 - 9.81 * delta, 0) := by
    unfold vecAdd vecScale gravityVec
    simp only [Prod.mk.injEq]
    refine ⟨by ring, by ring, by ring⟩
  have hnorm : vecNormalize ((0 : ℝ), 100 - 9.81 * delta, (0 : ℝ)) = (0, 1, 0) := by
    unfold vecNormalize vecLength vecScale
    have hL1 : Real.sqrt ((0:ℝ) ^ 2 + (100 - 9.81 * delta) ^ 2 + (0:ℝ) ^ 2) =
        100 - 9.81 * delta := by
      rw [show (0:ℝ) ^ 2 + (100 - 9.81 * delta) ^ 2 + (0:ℝ) ^ 2 =
        (100 - 9.81 * delta) ^ 2 by ring]
      exact Real.sqrt_sq hpos.le
    simp only [hL1, Prod.mk.injEq]
    refine ⟨by ring, ?_, by ring⟩
    field_simp
  simp only [updateVelocity]
  rw [hlen, hv1, hnorm]
  unfold vecAdd vecScale gravityVec
  dsimp only
  ring

/-- Witness for update_applies_gravity_twice at delta = 1. -/
theorem update_applies_gravity_twice_witness :
    (0 : ℝ) < 1 ∧ (1 : ℝ) ≤ 1 ∧
    ((updateVelocity (0, 100, 0) 1).2.1 = 100 - 2 * 9.81 * 1 - dragForce 100 * 1 ∧
      0 < dragForce 100) :=
  ⟨one_pos, le_refl 1, update_applies_gravity_twice 1 one_pos (le_refl 1)⟩
